import Mathlib

/-!
Verification of the `ssllabs` Python client library (`ssllabs/client.py`)
against its natural-language specification.

The embedding is shallow: the generator `Client.analyze` is modelled as a
function from the client state and a scripted list of transport responses to
the list of yielded partial snapshots, the run outcome, and the final client
state; the query dictionaries built for each HTTP GET are recorded in
issue order.  `urllib.parse.urlsplit` / `urlunsplit` are modelled over
`List Char` following the CPython 3.11 algorithm.
-/

namespace Ssllabs

/-- The decoded JSON body of one `analyze` response.  `status` is the state
discriminant consumed by the driver (`data['status']` in the source); `rest`
stands for every other field of the body, carried through verbatim. -/
structure AnalyzeData where
  status : String
  rest : Nat
deriving DecidableEq, Repr

/-- Modelled from the spec: `ssllabs/host.py` is not under `src/`.  The spec
says the Host snapshot is "a decoded record representing the state of one
analysis run", decoded verbatim from the JSON payload with no further
validation, so `Host` wraps the decoded body. -/
structure Host where
  data : AnalyzeData
deriving DecidableEq, Repr

/-- The error kinds of the `ssllabs.errors` taxonomy. -/
inductive ErrorKind where
  | invocationError
  | rateLimited
  | internalError
  | serviceNotAvailable
  | serviceOverloaded
deriving DecidableEq, Repr

/-- Errors observable from the client: a typed `ResponseError` subclass
carrying the server reason string, the generic `requests.HTTPError` with its
status code and reason, or `NoHostError` from the `host` property. -/
inductive SslError where
  | responseError (kind : ErrorKind) (reason : String)
  | httpError (code : Nat) (reason : String)
  | noHostError (msg : String)
deriving DecidableEq, Repr

/-- Modelled from the spec: `ssllabs/errors.py` is not under `src/`.  The spec
describes `errors.codes` as a static finite mapping from known HTTP status
codes to specific error kinds; per the spec 429 maps to the rate-limit kind
and 418 is unmapped.  The remaining entries follow the externally documented
SSL Labs API error codes the spec refers to. -/
def errorsCodes : List (Nat × ErrorKind) :=
  [(400, .invocationError), (429, .rateLimited), (500, .internalError),
   (503, .serviceNotAvailable), (529, .serviceOverloaded)]

/-- Lookup in the `errors.codes` mapping (`e.response.status_code in errors.codes`
and `errors.codes[...]` in the source). -/
def lookupCode (code : Nat) : Option ErrorKind :=
  (errorsCodes.find? (fun p => p.1 = code)).map Prod.snd

/-- The `except requests.HTTPError` clause of `Client.analyze`: a known status
code is re-raised as its typed error carrying the server reason; an unknown
one re-raises the generic transport error unchanged. -/
def mapHttpError (code : Nat) (reason : String) : SslError :=
  match lookupCode code with
  | some kind => .responseError kind reason
  | none => .httpError code reason

/-- One scripted transport response: `requests.get` followed by
`raise_for_status` either returns a decoded JSON body or raises
`requests.HTTPError` with a status code and reason. -/
inductive Response where
  | ok (data : AnalyzeData)
  | httpError (code : Nat) (reason : String)
deriving DecidableEq, Repr

/-- The client session state: the three entrypoint fields set by the
`entrypoint` setter and the private `__host` slot. -/
structure ClientState where
  scheme : List Char
  netloc : List Char
  path : List Char
  host? : Option Host
deriving DecidableEq, Repr

/-- A query dictionary as passed to `urlencode`, in insertion order. -/
abbrev Query := List (String × String)

/-- The base query of `Client.analyze`:
`{'host': host, 'all': 'done'}`, then `publish='on'` if `publish`, then
`ignoreMismatch='on'` if `ignoreMismatch`. -/
def baseQuery (host : String) (publish ignoreMismatch : Bool) : Query :=
  [("host", host), ("all", "done")]
    ++ (if publish then [("publish", "on")] else [])
    ++ (if ignoreMismatch then [("ignoreMismatch", "on")] else [])

/-- The first-request query of `Client.analyze`:
`startnewquery = {'startNew': 'on'}; startnewquery.update(query)`. -/
def startNewQuery (host : String) (publish ignoreMismatch : Bool) : Query :=
  ("startNew", "on") :: baseQuery host publish ignoreMismatch

/-- How a driver run ends: the terminal branch after the polling loop, an
exception raised out of the generator, or the finite script running dry while
the driver still wants to poll (an artifact of the finite script, not of the
source). -/
inductive RunOutcome where
  | completed (final : Host)
  | failed (e : SslError)
  | outOfResponses
deriving DecidableEq, Repr

/-- Everything observable from one driver run: the query of every HTTP request
issued, in order; the partial snapshots yielded, in order; how the run ended;
and the client state afterwards. -/
structure RunResult where
  requests : List Query
  yields : List Host
  outcome : RunOutcome
  final : ClientState
deriving DecidableEq, Repr

/-- The test of the `while` loop of `Client.analyze`:
`data['status'] in {'IN_PROGRESS', 'DNS'}`. -/
def pollingStatus (s : String) : Bool :=
  s = "IN_PROGRESS" ∨ s = "DNS"

/-- The `while` loop of `Client.analyze` (source lines 140-145), run against
the remaining scripted responses.  `q` is the query without `startNew`,
already fixed before the loop.  While the status is polling, the driver yields
the current snapshot, issues the next request and decodes its response; on a
terminal status it stores the snapshot into the `__host` slot and ends; an
HTTP failure raises out through the error mapper with the state untouched. -/
def analyzeLoop (q : Query) (st : ClientState) (data : AnalyzeData)
    (responses : List Response) : RunResult :=
    if pollingStatus data.status then
      match responses with
      | [] => ⟨[q], [Host.mk data], .outOfResponses, st⟩
      | .ok d :: rest =>
        let r := analyzeLoop q st d rest
        ⟨q :: r.requests, Host.mk data :: r.yields, r.outcome, r.final⟩
      | .httpError c reason :: _ =>
        ⟨[q], [Host.mk data], .failed (mapHttpError c reason), st⟩
    else
      ⟨[], [], .completed (Host.mk data), { st with host? := some (Host.mk data) }⟩

/-- One full run of the generator `Client.analyze` (source lines 120-150)
against a scripted list of transport responses: the first request carries the
`startNew` query; its response seeds the polling loop; an HTTP failure on the
first request raises through the error mapper at once. -/
def analyzeRun (host : String) (publish ignoreMismatch : Bool)
    (st : ClientState) (responses : List Response) : RunResult :=
  let q := baseQuery host publish ignoreMismatch
  let snq := startNewQuery host publish ignoreMismatch
  match responses with
  | [] => ⟨[snq], [], .outOfResponses, st⟩
  | .ok d :: rest =>
    let r := analyzeLoop q st d rest
    ⟨snq :: r.requests, r.yields, r.outcome, r.final⟩
  | .httpError c reason :: _ =>
    ⟨[snq], [], .failed (mapHttpError c reason), st⟩

/-- The `host` property (source lines 152-163): raises `NoHostError` while the
`__host` slot is unset, otherwise returns the stored snapshot. -/
def hostGet (st : ClientState) : Except SslError Host :=
  match st.host? with
  | none => .error (.noHostError
      "analyze must be run to completion before the host property may be accessed")
  | some h => .ok h

/-- The `host` property in state-passing form: its body only reads
`self.__host`, so the state it returns is the state it was given. -/
def hostGetS (st : ClientState) : Except SslError Host × ClientState :=
  (hostGet st, st)

/-! ### The URL-parsing primitive

`six.moves.urllib.parse` resolves to the standard `urllib.parse` module; the
model below follows the CPython 3.11 algorithm for `urlsplit` and
`urlunsplit`.  Two guards of `urlsplit` that need IP-address parsing and
Unicode normalization tables (`_check_bracketed_host`, `_checknetloc`), both
concerning only exotic authorities, are outside the model's scope.  Python
strings are modelled as `List Char`; `str.lower`, applied by `urlsplit` only
to scheme characters, is modelled on the ASCII range. -/

/-- One of `_UNSAFE_URL_BYTES_TO_REMOVE` (tab, CR, LF). -/
def removedChar (c : Char) : Bool := c == '\t' || c == '\r' || c == '\n'

/-- A WHATWG C0-control or space character (code point at most 32). -/
def c0OrSpace (c : Char) : Bool := c.toNat ≤ 32

/-- The input preprocessing of `urlsplit`: strip leading C0-control/space
characters, then remove every tab, CR and LF. -/
def preprocess (l : List Char) : List Char :=
  (l.dropWhile c0OrSpace).filter (fun c => !removedChar c)

/-- The characters CPython allows in a URL scheme (`scheme_chars`). -/
def schemeChars : List Char :=
  "abcdefghijklmnopqrstuvwxyzABCDEFGHIJKLMNOPQRSTUVWXYZ0123456789+-.".toList

/-- Membership test against `scheme_chars` (`c not in scheme_chars`). -/
def isSchemeChar (c : Char) : Bool := schemeChars.contains c

/-- ASCII `str.lower` on one character. -/
def lowerChar (c : Char) : Char :=
  if 65 ≤ c.toNat ∧ c.toNat ≤ 90 then Char.ofNat (c.toNat + 32) else c

/-- Not a colon (the scheme delimiter search `url.find(':')`). -/
def notColon (c : Char) : Bool := c != ':'

/-- A character that stays inside the netloc: `_splitnetloc` scans for the
first of `'/'`, `'?'`, `'#'`. -/
def netChar (c : Char) : Bool := c != '/' && c != '?' && c != '#'

/-- Not the fragment delimiter. -/
def notHash (c : Char) : Bool := c != '#'

/-- Not the query delimiter. -/
def notQuest (c : Char) : Bool := c != '?'

/-- `url.split(sep, 1)` preceded by the `sep in url` test: the pair of the
part before the first `sep` and the part after it; the whole string and an
empty remainder when `sep` does not occur. -/
def splitOnce (p : Char → Bool) (url : List Char) : List Char × List Char :=
  if url.all p then (url, []) else (url.takeWhile p, (url.dropWhile p).tail)

/-- `url[0].isascii() and url[0].isalpha()` on a modelled string. -/
def headAlphaAscii (url : List Char) : Bool :=
  match url.head? with
  | some c => decide (c.toNat ≤ 127) && c.isAlpha
  | none => false

/-- The scheme-extraction step of `urlsplit`: when the string has a colon at
a positive index, starts with an ASCII letter, and everything before the colon
is a scheme character, the scheme is that prefix lowercased and the rest
follows the colon; otherwise the scheme is empty and the string is
untouched. -/
def splitScheme (url : List Char) : List Char × List Char :=
  if url.contains ':' && !(url.takeWhile notColon).isEmpty
      && headAlphaAscii url && (url.takeWhile notColon).all isSchemeChar then
    ((url.takeWhile notColon).map lowerChar, (url.dropWhile notColon).tail)
  else ([], url)

/-- The parsed components `SplitResult(scheme, netloc, path, query, fragment)`. -/
structure SplitResult where
  scheme : List Char
  netloc : List Char
  path : List Char
  query : List Char
  fragment : List Char
deriving DecidableEq, Repr

/-- The unbalanced-IPv6-bracket test of `urlsplit`:
`('[' in netloc and ']' not in netloc) or (']' in netloc and '[' not in netloc)`. -/
def badBrackets (netloc : List Char) : Bool :=
  (netloc.contains '[' && !netloc.contains ']')
    || (netloc.contains ']' && !netloc.contains '[')

/-- The netloc step of `urlsplit`: when the string starts with `//`,
`_splitnetloc` scans up to the first `/`, `?` or `#` and the unbalanced-bracket
test may raise `ValueError("Invalid IPv6 URL")`; otherwise the netloc is empty
and the string is untouched. -/
def splitNetlocStep (url1 : List Char) : Except String (List Char × List Char) :=
  if url1.take 2 = ['/', '/'] then
    let netloc := (url1.drop 2).takeWhile netChar
    if badBrackets netloc then .error "Invalid IPv6 URL"
    else .ok (netloc, (url1.drop 2).dropWhile netChar)
  else .ok ([], url1)

/-- `urllib.parse.urlsplit` (with `allow_fragments=True`): input preprocessing,
scheme extraction, the netloc step, then fragment and query splitting. -/
def urlsplit (v : List Char) : Except String SplitResult :=
  let (scheme, url1) := splitScheme (preprocess v)
  match splitNetlocStep url1 with
  | .error e => .error e
  | .ok (netloc, url2) =>
    let (url3, fragment) := splitOnce notHash url2
    let (path, query) := splitOnce notQuest url3
    .ok ⟨scheme, netloc, path, query, fragment⟩

/-- The schemes of `urllib.parse.uses_netloc` (minus the empty entry, which
the truthiness test `scheme and scheme in uses_netloc` makes unreachable). -/
def usesNetloc : List (List Char) :=
  ["ftp", "http", "gopher", "nntp", "telnet", "imap", "wais", "file", "mms",
   "https", "shttp", "snews", "prospero", "rtsp", "rtsps", "rtspu", "rsync",
   "svn", "svn+ssh", "sftp", "nfs", "git", "git+ssh", "ws", "wss"].map
    String.toList

/-- `urllib.parse.urlunsplit`: reassembles the five components.  The `//`
marker is emitted when the netloc is non-empty, or when the scheme is a known
netloc-using scheme and the path does not already start with `//`. -/
def urlunsplit (r : SplitResult) : List Char :=
  let url := r.path
  let url :=
    if ¬ r.netloc.isEmpty
        ∨ (¬ r.scheme.isEmpty ∧ r.scheme ∈ usesNetloc
            ∧ url.take 2 ≠ ['/', '/']) then
      ['/', '/'] ++ r.netloc
        ++ (if ¬ url.isEmpty ∧ url.take 1 ≠ ['/'] then '/' :: url else url)
    else url
  let url := if ¬ r.scheme.isEmpty then r.scheme ++ ':' :: url else url
  let url := if ¬ r.query.isEmpty then url ++ '?' :: r.query else url
  let url := if ¬ r.fragment.isEmpty then url ++ '#' :: r.fragment else url
  url

/-- `path.rstrip('/')`. -/
def rstripSlash (l : List Char) : List Char :=
  (l.reverse.dropWhile (fun c => c == '/')).reverse

/-- The `entrypoint` setter (source lines 43-55): `urlsplit` the value — an
invalid URL raises whatever `urlsplit` raises — then store the scheme, the
netloc, and the path with trailing slashes stripped. -/
def setEntrypoint (st : ClientState) (value : List Char) :
    Except String ClientState :=
  match urlsplit value with
  | .error e => .error e
  | .ok parts =>
    .ok { st with
      scheme := parts.scheme
      netloc := parts.netloc
      path := rstripSlash parts.path }

/-- The `entrypoint` getter (source lines 29-41):
`urlunsplit((scheme, netloc, path, '', ''))`. -/
def getEntrypoint (st : ClientState) : List Char :=
  urlunsplit ⟨st.scheme, st.netloc, st.path, [], []⟩

/-- `Client.__init__` (source lines 21-27): run the `entrypoint` setter on the
given URL, then set the `__host` slot to `None`. -/
def initClient (entrypoint : List Char) : Except String ClientState :=
  setEntrypoint ⟨[], [], [], none⟩ entrypoint

/-! ### Helper lemmas about the driver loop -/

/-- Every request issued inside the polling loop carries the loop query
(the one without `startNew`), fixed before the loop. -/
theorem analyzeLoop_requests_mem (q : Query) (st : ClientState) :
    ∀ (responses : List Response) (data : AnalyzeData),
      ∀ x ∈ (analyzeLoop q st data responses).requests, x = q := by
  intro responses
  induction responses with
  | nil =>
    intro data x hx
    rw [analyzeLoop.eq_def] at hx
    by_cases hp : pollingStatus data.status = true <;> simp [hp] at hx
    exact hx
  | cons r rest ih =>
    intro data x hx
    rw [analyzeLoop.eq_def] at hx
    by_cases hp : pollingStatus data.status = true
    · cases r with
      | ok d =>
        simp only [hp, if_true, List.mem_cons] at hx
        rcases hx with h | h
        · exact h
        · exact ih d x h
      | httpError c reason =>
        simp [hp] at hx
        exact hx
    · simp [hp] at hx

/-- If the loop does not end in the terminal branch, the client state is left
untouched. -/
theorem analyzeLoop_final_of_not_completed (q : Query) (st : ClientState) :
    ∀ (responses : List Response) (data : AnalyzeData),
      (∀ h, (analyzeLoop q st data responses).outcome ≠ .completed h) →
      (analyzeLoop q st data responses).final = st := by
  intro responses
  induction responses with
  | nil =>
    intro data hne
    rw [analyzeLoop.eq_def]
    by_cases hp : pollingStatus data.status = true
    · simp [hp]
    · refine absurd ?_ (hne (Host.mk data))
      rw [analyzeLoop.eq_def]
      simp [hp]
  | cons r rest ih =>
    intro data hne
    rw [analyzeLoop.eq_def]
    by_cases hp : pollingStatus data.status = true
    · cases r with
      | ok d =>
        simp only [hp, if_true]
        refine ih d ?_
        intro h hc
        refine hne h ?_
        rw [analyzeLoop.eq_def]
        simpa [hp] using hc
      | httpError c reason => simp [hp]
    · refine absurd ?_ (hne (Host.mk data))
      rw [analyzeLoop.eq_def]
      simp [hp]

/-- If the loop ends in the terminal branch, the terminal snapshot is stored
into the `__host` slot and nothing else of the state changes. -/
theorem analyzeLoop_final_of_completed (q : Query) (st : ClientState) :
    ∀ (responses : List Response) (data : AnalyzeData) (h : Host),
      (analyzeLoop q st data responses).outcome = .completed h →
      (analyzeLoop q st data responses).final = { st with host? := some h } := by
  intro responses
  induction responses with
  | nil =>
    intro data h hc
    rw [analyzeLoop.eq_def] at hc ⊢
    by_cases hp : pollingStatus data.status = true
    · simp [hp] at hc
    · rw [if_neg hp] at hc ⊢
      simp only [RunOutcome.completed.injEq] at hc
      simp [← hc]
  | cons r rest ih =>
    intro data h hc
    rw [analyzeLoop.eq_def] at hc ⊢
    by_cases hp : pollingStatus data.status = true
    · cases r with
      | ok d =>
        simp only [hp, if_true] at hc ⊢
        exact ih d h hc
      | httpError c reason => simp [hp] at hc
    · rw [if_neg hp] at hc ⊢
      simp only [RunOutcome.completed.injEq] at hc
      simp [← hc]

/-- Every driver run issues the `startNew` query first, and every later
request carries the base query. -/
theorem analyzeRun_requests (host : String) (publish ignoreMismatch : Bool)
    (st : ClientState) (responses : List Response) :
    ∃ qs, (analyzeRun host publish ignoreMismatch st responses).requests
        = startNewQuery host publish ignoreMismatch :: qs
      ∧ ∀ x ∈ qs, x = baseQuery host publish ignoreMismatch := by
  cases responses with
  | nil => exact ⟨[], rfl, by simp⟩
  | cons r rest =>
    cases r with
    | ok d =>
      exact ⟨(analyzeLoop (baseQuery host publish ignoreMismatch) st d rest).requests,
        rfl, analyzeLoop_requests_mem _ st rest d⟩
    | httpError c reason => exact ⟨[], rfl, by simp⟩

/-- Every entry of the base query is one of the four analyze parameters. -/
theorem mem_baseQuery_sub (host : String) (p i : Bool) :
    ∀ kv ∈ baseQuery host p i,
      kv ∈ (("host", host) :: ("all", "done") :: ("publish", "on")
        :: [("ignoreMismatch", "on")] : Query) := by
  intro kv hkv
  cases p <;> cases i <;> simp [baseQuery] at hkv ⊢ <;> tauto

/-- No entry of the base query has the key `startNew`. -/
theorem mem_baseQuery_key_ne (host : String) (p i : Bool) :
    ∀ kv ∈ baseQuery host p i, kv.1 ≠ "startNew" := by
  intro kv hkv
  have h4 := mem_baseQuery_sub host p i kv hkv
  simp only [List.mem_cons, List.not_mem_nil, or_false] at h4
  rcases h4 with rfl | rfl | rfl | rfl <;> simp

/-! ### The claims -/

/-- C1: for a scripted run whose decoded statuses are DNS, then IN_PROGRESS,
then READY, the driver yields exactly two partial snapshots (the DNS one, then
the IN_PROGRESS one) and terminates, and afterwards the session's completed
host slot equals the Host decoded from the READY payload. -/
theorem claim1_dns_inprogress_ready_run (host : String)
    (publish ignoreMismatch : Bool) (st : ClientState) (d1 d2 d3 : AnalyzeData)
    (h1 : d1.status = "DNS") (h2 : d2.status = "IN_PROGRESS")
    (h3 : d3.status = "READY") :
    (analyzeRun host publish ignoreMismatch st
        [.ok d1, .ok d2, .ok d3]).yields = [Host.mk d1, Host.mk d2]
      ∧ (analyzeRun host publish ignoreMismatch st
        [.ok d1, .ok d2, .ok d3]).outcome = .completed (Host.mk d3)
      ∧ (analyzeRun host publish ignoreMismatch st
        [.ok d1, .ok d2, .ok d3]).final.host? = some (Host.mk d3) := by
  have p1 : pollingStatus d1.status = true := by simp [pollingStatus, h1]
  have p2 : pollingStatus d2.status = true := by simp [pollingStatus, h2]
  have p3 : pollingStatus d3.status = false := by simp [pollingStatus, h3]
  refine ⟨?_, ?_, ?_⟩ <;>
    simp [analyzeRun, analyzeLoop.eq_def, p1, p2, p3]

/-- Witness for C1 at a concrete scripted run. -/
theorem claim1_witness :
    (⟨"DNS", 0⟩ : AnalyzeData).status = "DNS"
      ∧ (⟨"IN_PROGRESS", 1⟩ : AnalyzeData).status = "IN_PROGRESS"
      ∧ (⟨"READY", 2⟩ : AnalyzeData).status = "READY"
      ∧ ((analyzeRun "example.com" false false ⟨[], [], [], none⟩
          [.ok ⟨"DNS", 0⟩, .ok ⟨"IN_PROGRESS", 1⟩, .ok ⟨"READY", 2⟩]).yields
            = [Host.mk ⟨"DNS", 0⟩, Host.mk ⟨"IN_PROGRESS", 1⟩]
        ∧ (analyzeRun "example.com" false false ⟨[], [], [], none⟩
          [.ok ⟨"DNS", 0⟩, .ok ⟨"IN_PROGRESS", 1⟩, .ok ⟨"READY", 2⟩]).outcome
            = .completed (Host.mk ⟨"READY", 2⟩)
        ∧ (analyzeRun "example.com" false false ⟨[], [], [], none⟩
          [.ok ⟨"DNS", 0⟩, .ok ⟨"IN_PROGRESS", 1⟩, .ok ⟨"READY", 2⟩]).final.host?
            = some (Host.mk ⟨"READY", 2⟩)) :=
  ⟨rfl, rfl, rfl,
    claim1_dns_inprogress_ready_run "example.com" false false ⟨[], [], [], none⟩
      ⟨"DNS", 0⟩ ⟨"IN_PROGRESS", 1⟩ ⟨"READY", 2⟩ rfl rfl rfl⟩

/-- C9: if the very first response already has a terminal status, the driver
yields no partial snapshot and stores that first decoded payload as the
session's completed snapshot. -/
theorem claim9_first_response_terminal (host : String)
    (publish ignoreMismatch : Bool) (st : ClientState) (d : AnalyzeData)
    (rest : List Response) (hterm : pollingStatus d.status = false) :
    (analyzeRun host publish ignoreMismatch st (.ok d :: rest)).yields = []
      ∧ (analyzeRun host publish ignoreMismatch st (.ok d :: rest)).outcome
        = .completed (Host.mk d)
      ∧ (analyzeRun host publish ignoreMismatch st (.ok d :: rest)).final.host?
        = some (Host.mk d) := by
  refine ⟨?_, ?_, ?_⟩ <;> simp [analyzeRun, analyzeLoop.eq_def, hterm]

/-- Witness for C9: an immediate ERROR response. -/
theorem claim9_witness :
    pollingStatus (⟨"ERROR", 7⟩ : AnalyzeData).status = false
      ∧ ((analyzeRun "example.com" false false ⟨[], [], [], none⟩
          [.ok ⟨"ERROR", 7⟩]).yields = []
        ∧ (analyzeRun "example.com" false false ⟨[], [], [], none⟩
          [.ok ⟨"ERROR", 7⟩]).outcome = .completed (Host.mk ⟨"ERROR", 7⟩)
        ∧ (analyzeRun "example.com" false false ⟨[], [], [], none⟩
          [.ok ⟨"ERROR", 7⟩]).final.host? = some (Host.mk ⟨"ERROR", 7⟩)) :=
  ⟨by decide,
    claim9_first_response_terminal "example.com" false false ⟨[], [], [], none⟩
      ⟨"ERROR", 7⟩ [] (by decide)⟩

/-- C2: in every driver run the first request carries `startNew=on`, and no
request after the first carries a `startNew` parameter at all. -/
theorem claim2_startnew_first_only (host : String)
    (publish ignoreMismatch : Bool) (st : ClientState)
    (responses : List Response) :
    ∃ q0 qs, (analyzeRun host publish ignoreMismatch st responses).requests
        = q0 :: qs
      ∧ ("startNew", "on") ∈ q0
      ∧ ∀ q ∈ qs, ∀ kv ∈ q, kv.1 ≠ "startNew" := by
  obtain ⟨qs, hqs, hall⟩ :=
    analyzeRun_requests host publish ignoreMismatch st responses
  refine ⟨_, qs, hqs, ?_, ?_⟩
  · simp [startNewQuery]
  · intro q hq kv hkv
    rw [hall q hq] at hkv
    exact mem_baseQuery_key_ne host publish ignoreMismatch kv hkv

/-- C8: every request of a run carries `host=h` and `all=done`; `publish=on`
is present exactly when the publish flag is set and `ignoreMismatch=on`
exactly when the ignore-mismatch flag is set; and no parameter beyond the five
analyze parameters ever appears (`startNew=on` being the first request's
one-shot extra). -/
theorem claim8_query_parameters (host : String)
    (publish ignoreMismatch : Bool) (st : ClientState)
    (responses : List Response) :
    ∀ q ∈ (analyzeRun host publish ignoreMismatch st responses).requests,
      ("host", host) ∈ q ∧ ("all", "done") ∈ q
      ∧ (("publish", "on") ∈ q ↔ publish = true)
      ∧ (("ignoreMismatch", "on") ∈ q ↔ ignoreMismatch = true)
      ∧ ∀ kv ∈ q, kv ∈ (("startNew", "on") :: ("host", host) :: ("all", "done")
          :: ("publish", "on") :: [("ignoreMismatch", "on")] : Query) := by
  intro q hq
  obtain ⟨qs, hqs, hall⟩ :=
    analyzeRun_requests host publish ignoreMismatch st responses
  rw [hqs] at hq
  have hq2 : q = startNewQuery host publish ignoreMismatch
      ∨ q = baseQuery host publish ignoreMismatch := by
    rcases List.mem_cons.mp hq with h | h
    · exact Or.inl h
    · exact Or.inr (hall q h)
  rcases hq2 with rfl | rfl <;> cases publish <;> cases ignoreMismatch <;>
    refine ⟨?_, ?_, ?_, ?_, ?_⟩ <;>
      simp [startNewQuery, baseQuery]

/-- Witness for C8 at a concrete run and its first request. -/
theorem claim8_witness :
    startNewQuery "example.com" true false
        ∈ (analyzeRun "example.com" true false ⟨[], [], [], none⟩ []).requests
      ∧ (("host", "example.com") ∈ startNewQuery "example.com" true false
        ∧ ("all", "done") ∈ startNewQuery "example.com" true false
        ∧ (("publish", "on") ∈ startNewQuery "example.com" true false
            ↔ true = true)
        ∧ (("ignoreMismatch", "on") ∈ startNewQuery "example.com" true false
            ↔ false = true)
        ∧ ∀ kv ∈ startNewQuery "example.com" true false,
            kv ∈ (("startNew", "on") :: ("host", "example.com")
              :: ("all", "done") :: ("publish", "on")
              :: [("ignoreMismatch", "on")] : Query)) :=
  ⟨by decide,
    claim8_query_parameters "example.com" true false ⟨[], [], [], none⟩ []
      (startNewQuery "example.com" true false) (by decide)⟩

/-- Inside the polling loop, a scripted prefix of polling responses followed
by an HTTP failure makes the run fail with the mapped error. -/
theorem analyzeLoop_outcome_error (q : Query) (st : ClientState) (c : Nat)
    (reason : String) (rest : List Response) :
    ∀ (ds : List AnalyzeData) (data : AnalyzeData),
      pollingStatus data.status = true →
      (∀ d ∈ ds, pollingStatus d.status = true) →
      (analyzeLoop q st data
          (ds.map Response.ok ++ Response.httpError c reason :: rest)).outcome
        = .failed (mapHttpError c reason) := by
  intro ds
  induction ds with
  | nil =>
    intro data hd _h
    rw [analyzeLoop.eq_def]
    simp [hd]
  | cons d ds ih =>
    intro data hd hds
    rw [analyzeLoop.eq_def]
    simp only [hd, if_true, List.map_cons, List.cons_append]
    exact ih d (hds d (by simp)) (fun x hx => hds x (by simp [hx]))

/-- C3: when a request of a run fails with a non-2xx status, a code in the
known `errors.codes` mapping raises the corresponding typed error carrying
the server's reason string, and a code outside the mapping re-raises the
generic transport error unchanged. -/
theorem claim3_http_error_mapping (host : String)
    (publish ignoreMismatch : Bool) (st : ClientState)
    (ds : List AnalyzeData) (c : Nat) (reason : String) (rest : List Response)
    (hpoll : ∀ d ∈ ds, pollingStatus d.status = true) :
    (analyzeRun host publish ignoreMismatch st
        (ds.map Response.ok ++ Response.httpError c reason :: rest)).outcome
        = .failed (mapHttpError c reason)
      ∧ (∀ k, lookupCode c = some k →
          mapHttpError c reason = .responseError k reason)
      ∧ (lookupCode c = none →
          mapHttpError c reason = .httpError c reason) := by
  refine ⟨?_, ?_, ?_⟩
  · cases ds with
    | nil => rfl
    | cons d ds =>
      simp only [List.map_cons, List.cons_append, analyzeRun]
      exact analyzeLoop_outcome_error _ st c reason rest ds d
        (hpoll d (by simp)) (fun x hx => hpoll x (by simp [hx]))
  · intro k hk
    simp [mapHttpError, hk]
  · intro hk
    simp [mapHttpError, hk]

/-- Witness for C3: one polling response, then a 429 rate-limit failure; 429
is in the mapping while 418 is not. -/
theorem claim3_witness :
    (∀ d ∈ [(⟨"DNS", 0⟩ : AnalyzeData)], pollingStatus d.status = true)
      ∧ (analyzeRun "example.com" false false ⟨[], [], [], none⟩
          ([(⟨"DNS", 0⟩ : AnalyzeData)].map Response.ok
            ++ Response.httpError 429 "too many requests" :: [])).outcome
        = .failed (mapHttpError 429 "too many requests")
      ∧ mapHttpError 429 "too many requests"
        = .responseError .rateLimited "too many requests"
      ∧ lookupCode 418 = none
      ∧ mapHttpError 418 "teapot" = .httpError 418 "teapot" :=
  ⟨by decide,
    (claim3_http_error_mapping "example.com" false false ⟨[], [], [], none⟩
      [⟨"DNS", 0⟩] 429 "too many requests" [] (by decide)).1,
    by decide, by decide, by decide⟩

/-- C4: a run that aborts with an error leaves the whole client state — in
particular the completed-snapshot slot — exactly as it was before the run. -/
theorem claim4_failure_preserves_state (host : String)
    (publish ignoreMismatch : Bool) (st : ClientState)
    (responses : List Response) (e : SslError)
    (hfail : (analyzeRun host publish ignoreMismatch st responses).outcome
      = .failed e) :
    (analyzeRun host publish ignoreMismatch st responses).final.host?
        = st.host?
      ∧ (analyzeRun host publish ignoreMismatch st responses).final = st := by
  cases responses with
  | nil => simp [analyzeRun] at hfail
  | cons r rest =>
    cases r with
    | ok d =>
      have hfin : (analyzeLoop (baseQuery host publish ignoreMismatch) st d
          rest).final = st := by
        apply analyzeLoop_final_of_not_completed
        intro h hc
        have : (analyzeRun host publish ignoreMismatch st
            (Response.ok d :: rest)).outcome = .completed h := by
          simpa [analyzeRun] using hc
        rw [hfail] at this
        simp at this
      constructor <;> simp [analyzeRun, hfin]
    | httpError c reason => constructor <;> simp [analyzeRun]

/-- Witness for C4: a failure on the third request, after two yielded partial
snapshots, on a session that already holds a previous completed snapshot. -/
theorem claim4_witness :
    (analyzeRun "example.com" false false
        ⟨[], [], [], some (Host.mk ⟨"READY", 9⟩)⟩
        [.ok ⟨"DNS", 0⟩, .ok ⟨"IN_PROGRESS", 1⟩,
          .httpError 529 "overloaded"]).outcome
      = .failed (mapHttpError 529 "overloaded")
    ∧ ((analyzeRun "example.com" false false
        ⟨[], [], [], some (Host.mk ⟨"READY", 9⟩)⟩
        [.ok ⟨"DNS", 0⟩, .ok ⟨"IN_PROGRESS", 1⟩,
          .httpError 529 "overloaded"]).final.host?
        = some (Host.mk ⟨"READY", 9⟩)
      ∧ (analyzeRun "example.com" false false
        ⟨[], [], [], some (Host.mk ⟨"READY", 9⟩)⟩
        [.ok ⟨"DNS", 0⟩, .ok ⟨"IN_PROGRESS", 1⟩,
          .httpError 529 "overloaded"]).final
        = ⟨[], [], [], some (Host.mk ⟨"READY", 9⟩)⟩) :=
  ⟨by decide,
    claim4_failure_preserves_state "example.com" false false
      ⟨[], [], [], some (Host.mk ⟨"READY", 9⟩)⟩
      [.ok ⟨"DNS", 0⟩, .ok ⟨"IN_PROGRESS", 1⟩, .httpError 529 "overloaded"]
      (mapHttpError 529 "overloaded") (by decide)⟩

/-- A successful entrypoint update replaces the three URL fields and carries
the `__host` slot over unchanged. -/
theorem setEntrypoint_ok_host (st : ClientState) (value : List Char)
    (st2 : ClientState) (h : setEntrypoint st value = .ok st2) :
    st2.host? = st.host? := by
  unfold setEntrypoint at h
  cases hu : urlsplit value with
  | error e => rw [hu] at h; simp at h
  | ok parts =>
    rw [hu] at h
    simp only [Except.ok.injEq] at h
    rw [← h]

/-- A run that ends in the terminal branch stores its terminal snapshot and
changes nothing else of the state. -/
theorem analyzeRun_completed_final (host : String)
    (publish ignoreMismatch : Bool) (st : ClientState)
    (responses : List Response) (h : Host)
    (hc : (analyzeRun host publish ignoreMismatch st responses).outcome
      = .completed h) :
    (analyzeRun host publish ignoreMismatch st responses).final
      = { st with host? := some h } := by
  cases responses with
  | nil => simp [analyzeRun] at hc
  | cons r rest =>
    cases r with
    | ok d =>
      have hc2 : (analyzeLoop (baseQuery host publish ignoreMismatch) st d
          rest).outcome = .completed h := by simpa [analyzeRun] using hc
      have := analyzeLoop_final_of_completed
        (baseQuery host publish ignoreMismatch) st rest d h hc2
      simpa [analyzeRun] using this
    | httpError c reason => simp [analyzeRun] at hc

/-- C5: reading the `host` property on a freshly constructed session raises
the distinct `NoHostError` (the property never returns an absent value); after
a run has completed at a terminal status, reading it succeeds and returns the
terminal decoded Host payload. -/
theorem claim5_host_property (e : List Char) (st0 : ClientState)
    (host : String) (publish ignoreMismatch : Bool) (st : ClientState)
    (responses : List Response) (hinit : initClient e = .ok st0) :
    hostGet st0 = .error (.noHostError
        "analyze must be run to completion before the host property may be accessed")
      ∧ ∀ h, (analyzeRun host publish ignoreMismatch st responses).outcome
          = .completed h →
        st.host? = none →
        hostGet (analyzeRun host publish ignoreMismatch st responses).final
          = .ok h := by
  constructor
  · have h0 : st0.host? = none := setEntrypoint_ok_host _ e st0 hinit
    simp [hostGet, h0]
  · intro h hc _hn
    rw [analyzeRun_completed_final host publish ignoreMismatch st responses
      h hc]
    simp [hostGet]

/-- Witness for C5: a fresh session from the default entrypoint URL, and a
one-response READY run. -/
theorem claim5_witness :
    initClient ("https://api.ssllabs.com/api/v2").toList
        = .ok ⟨"https".toList, "api.ssllabs.com".toList, "/api/v2".toList,
          none⟩
      ∧ hostGet ⟨"https".toList, "api.ssllabs.com".toList, "/api/v2".toList,
          none⟩
        = .error (.noHostError
          "analyze must be run to completion before the host property may be accessed")
      ∧ hostGet (analyzeRun "example.com" false false ⟨[], [], [], none⟩
          [.ok ⟨"READY", 3⟩]).final = .ok (Host.mk ⟨"READY", 3⟩) :=
  ⟨rfl,
    (claim5_host_property ("https://api.ssllabs.com/api/v2").toList
      ⟨"https".toList, "api.ssllabs.com".toList, "/api/v2".toList, none⟩
      "example.com" false false ⟨[], [], [], none⟩ [.ok ⟨"READY", 3⟩]
      rfl).1,
    (claim5_host_property ("https://api.ssllabs.com/api/v2").toList
      ⟨"https".toList, "api.ssllabs.com".toList, "/api/v2".toList, none⟩
      "example.com" false false ⟨[], [], [], none⟩ [.ok ⟨"READY", 3⟩]
      rfl).2 (Host.mk ⟨"READY", 3⟩) (by decide) rfl⟩

/-- C10: a successful entrypoint update never touches the session's
completed-snapshot slot, and reading the `host` property returns the session
state unchanged — each operation touches only its own fields. -/
theorem claim10_frame_conditions (st : ClientState) (value : List Char)
    (st2 : ClientState) (hset : setEntrypoint st value = .ok st2) :
    st2.host? = st.host?
      ∧ (hostGetS st).2 = st
      ∧ hostGetS st2 = (hostGet st2, st2) :=
  ⟨setEntrypoint_ok_host st value st2 hset, rfl, rfl⟩

/-- Witness for C10 at a concrete entrypoint update. -/
theorem claim10_witness :
    setEntrypoint ⟨[], [], [], some (Host.mk ⟨"READY", 4⟩)⟩
        ("http://example.com/base/").toList
      = .ok ⟨"http".toList, "example.com".toList, "/base".toList,
        some (Host.mk ⟨"READY", 4⟩)⟩
    ∧ ((⟨"http".toList, "example.com".toList, "/base".toList,
          some (Host.mk ⟨"READY", 4⟩)⟩ : ClientState).host?
        = (⟨[], [], [], some (Host.mk ⟨"READY", 4⟩)⟩ : ClientState).host?
      ∧ (hostGetS ⟨[], [], [], some (Host.mk ⟨"READY", 4⟩)⟩).2
        = ⟨[], [], [], some (Host.mk ⟨"READY", 4⟩)⟩
      ∧ hostGetS ⟨"http".toList, "example.com".toList, "/base".toList,
          some (Host.mk ⟨"READY", 4⟩)⟩
        = (hostGet ⟨"http".toList, "example.com".toList, "/base".toList,
          some (Host.mk ⟨"READY", 4⟩)⟩,
          ⟨"http".toList, "example.com".toList, "/base".toList,
            some (Host.mk ⟨"READY", 4⟩)⟩)) :=
  ⟨rfl,
    claim10_frame_conditions ⟨[], [], [], some (Host.mk ⟨"READY", 4⟩)⟩
      ("http://example.com/base/").toList
      ⟨"http".toList, "example.com".toList, "/base".toList,
        some (Host.mk ⟨"READY", 4⟩)⟩ rfl⟩

/-- C7: setting the entrypoint — also from the constructor — fails exactly
when the URL-parsing primitive fails, with the parser's own error, at
configuration time (the setter involves no HTTP request at all); a URL the
parser accepts configures the session successfully. -/
theorem claim7_invalid_url_fails_at_configuration (st : ClientState)
    (value : List Char) :
    (∀ e, urlsplit value = .error e →
      setEntrypoint st value = .error e ∧ initClient value = .error e)
    ∧ (∀ e, setEntrypoint st value = .error e → urlsplit value = .error e)
    ∧ (∀ parts, urlsplit value = .ok parts →
      setEntrypoint st value = .ok { st with
        scheme := parts.scheme
        netloc := parts.netloc
        path := rstripSlash parts.path }) := by
  refine ⟨?_, ?_, ?_⟩
  · intro e he
    constructor <;> simp [setEntrypoint, initClient, he]
  · intro e he
    cases hu : urlsplit value with
    | error e2 => simpa [setEntrypoint, hu] using he
    | ok parts => simp [setEntrypoint, hu] at he
  · intro parts hp
    simp [setEntrypoint, hp]

/-- Witness for C7: an unbalanced IPv6 bracket makes the parser — and with it
the setter and the constructor — fail at once. -/
theorem claim7_witness :
    urlsplit ("http://[::1/x").toList = .error "Invalid IPv6 URL"
      ∧ (setEntrypoint ⟨[], [], [], none⟩ ("http://[::1/x").toList
          = .error "Invalid IPv6 URL"
        ∧ initClient ("http://[::1/x").toList = .error "Invalid IPv6 URL") :=
  ⟨rfl,
    (claim7_invalid_url_fails_at_configuration ⟨[], [], [], none⟩
      ("http://[::1/x").toList).1 "Invalid IPv6 URL" rfl⟩

/-! ### Helper lemmas for the URL round trip -/

/-- Character-level facts about lowercased scheme characters, checked over the
concrete `scheme_chars` alphabet. -/
theorem schemeChars_facts : ∀ c ∈ schemeChars,
    isSchemeChar (lowerChar c) = true
    ∧ lowerChar (lowerChar c) = lowerChar c
    ∧ notColon (lowerChar c) = true
    ∧ 32 < (lowerChar c).toNat
    ∧ (lowerChar c).toNat ≤ 127
    ∧ removedChar (lowerChar c) = false
    ∧ (c.isAlpha = true → (lowerChar c).isAlpha = true) := by decide

/-- Every character of the preprocessed input survives the tab/CR/LF
filter. -/
theorem preprocess_removedChar (v : List Char) :
    ∀ c ∈ preprocess v, removedChar c = false := by
  intro c hc
  have := (List.mem_filter.mp hc).2
  simpa using this

/-- A string whose head is not strippable and whose characters are not
removable is untouched by the preprocessing. -/
theorem preprocess_eq_self (l : List Char)
    (hhead : ∀ c, l.head? = some c → c0OrSpace c = false)
    (hall : ∀ c ∈ l, removedChar c = false) :
    preprocess l = l := by
  unfold preprocess
  have hdrop : l.dropWhile c0OrSpace = l := by
    cases l with
    | nil => rfl
    | cons a t => exact List.dropWhile_cons_of_neg (by simp [hhead a rfl])
  rw [hdrop]
  refine List.filter_eq_self.mpr ?_
  intro a ha
  simp [hall a ha]

/-- The part before the first separator consists of non-separators. -/
theorem splitOnce_fst_all (pr : Char → Bool) (url : List Char) :
    ∀ c ∈ (splitOnce pr url).1, pr c = true := by
  unfold splitOnce
  split
  · intro c hc
    exact List.all_eq_true.mp ‹url.all pr = true› c hc
  · intro c hc
    exact List.all_eq_true.mp (List.all_takeWhile (l := url) (p := pr)) c hc

/-- The part before the first separator is part of the string. -/
theorem splitOnce_fst_subset (pr : Char → Bool) (url : List Char) :
    ∀ c ∈ (splitOnce pr url).1, c ∈ url := by
  unfold splitOnce
  split
  · intro c hc; exact hc
  · intro c hc; exact (List.takeWhile_sublist pr).subset hc

/-- The part before the first separator is empty or begins like the
string. -/
theorem splitOnce_fst_head (pr : Char → Bool) (url : List Char) :
    (splitOnce pr url).1 = [] ∨ (splitOnce pr url).1.head? = url.head? := by
  unfold splitOnce
  split
  · right; rfl
  · cases url with
    | nil => left; rfl
    | cons a t =>
      by_cases h : pr a = true
      · right; simp [h]
      · left; simp [h]

/-- Splitting a string free of the separator returns it whole. -/
theorem splitOnce_of_all (pr : Char → Bool) (url : List Char)
    (h : url.all pr = true) : splitOnce pr url = (url, []) := by
  unfold splitOnce
  rw [if_pos h]

/-- `rstrip('/')` removes a (possibly empty) run of trailing slashes. -/
theorem rstripSlash_spec (l : List Char) :
    ∃ m, l = rstripSlash l ++ List.replicate m '/' := by
  refine ⟨(l.reverse.takeWhile (fun c => c == '/')).length, ?_⟩
  unfold rstripSlash
  conv_lhs =>
    rw [← l.reverse_reverse,
      ← List.takeWhile_append_dropWhile (fun c => c == '/') l.reverse]
  rw [List.reverse_append]
  congr 1
  rw [List.eq_replicate_iff]
  refine ⟨by simp, ?_⟩
  intro b hb
  rw [List.mem_reverse] at hb
  have := List.all_eq_true.mp
    (List.all_takeWhile (l := l.reverse) (p := fun c => c == '/')) b hb
  simpa using this

/-- Characters of the slash-stripped path are characters of the path. -/
theorem rstripSlash_mem (l : List Char) : ∀ c ∈ rstripSlash l, c ∈ l := by
  obtain ⟨m, hm⟩ := rstripSlash_spec l
  intro c hc
  rw [hm]
  exact List.mem_append_left _ hc

/-- The slash-stripped path is empty or begins like the path. -/
theorem rstripSlash_head (l : List Char) :
    rstripSlash l = [] ∨ (rstripSlash l).head? = l.head? := by
  obtain ⟨m, hm⟩ := rstripSlash_spec l
  cases hr : rstripSlash l with
  | nil => exact Or.inl rfl
  | cons a t =>
    right
    rw [hm, hr]
    simp

/-- A nonempty `takeWhile` output begins like the list. -/
theorem takeWhile_head_of_cons (p : Char → Bool) (url : List Char)
    (c0 : Char) (t : List Char) (hp : url.takeWhile p = c0 :: t) :
    url.head? = some c0 := by
  cases url with
  | nil => simp at hp
  | cons a u =>
    by_cases ha : p a = true
    · rw [List.takeWhile_cons_of_pos ha] at hp
      rw [List.cons.injEq] at hp
      rw [hp.1]
      rfl
    · rw [List.takeWhile_cons_of_neg (by simp [ha])] at hp
      simp at hp

/-- What scheme extraction can produce: no scheme and an untouched string, or
a lowercased scheme-character prefix led by an ASCII letter. -/
theorem splitScheme_cases (url : List Char) :
    splitScheme url = ([], url)
    ∨ ∃ c0 pre, url.takeWhile notColon = c0 :: pre
      ∧ (∀ c ∈ c0 :: pre, isSchemeChar c = true)
      ∧ c0.isAlpha = true ∧ c0.toNat ≤ 127
      ∧ splitScheme url
        = ((c0 :: pre).map lowerChar, (url.dropWhile notColon).tail) := by
  unfold splitScheme
  split
  · next hc =>
    right
    simp only [Bool.and_eq_true, Bool.not_eq_true'] at hc
    obtain ⟨⟨⟨hcolon, hpre⟩, hhead⟩, hall⟩ := hc
    cases hp : url.takeWhile notColon with
    | nil => rw [hp] at hpre; simp at hpre
    | cons c0 pre =>
      have h0 : url.head? = some c0 :=
        takeWhile_head_of_cons notColon url c0 pre hp
      unfold headAlphaAscii at hhead
      rw [h0] at hhead
      simp only [Bool.and_eq_true, decide_eq_true_eq] at hhead
      refine ⟨c0, pre, rfl, ?_, hhead.2, hhead.1, by simp [hp]⟩
      intro c hcm
      rw [← hp] at hcm
      exact List.all_eq_true.mp hall c hcm
  · exact Or.inl rfl

/-- The scheme-less output of scheme extraction is part of the input. -/
theorem splitScheme_snd_subset (url : List Char) :
    ∀ c ∈ (splitScheme url).2, c ∈ url := by
  unfold splitScheme
  split
  · intro c hc
    exact ((List.tail_sublist _).trans (List.dropWhile_sublist notColon)).subset hc
  · intro c hc; exact hc

/-- Scheme extraction on a reassembled `scheme:rest` string recovers exactly
the scheme and the rest, provided the scheme is a nonempty, already-lowercase
scheme-character string led by an ASCII letter. -/
theorem splitScheme_append (s rest : List Char) (hne : s ≠ [])
    (hchars : ∀ c ∈ s, isSchemeChar c = true ∧ notColon c = true)
    (hmap : s.map lowerChar = s) (hhead : headAlphaAscii s = true) :
    splitScheme (s ++ ':' :: rest) = (s, rest) := by
  have hpre : (s ++ ':' :: rest).takeWhile notColon = s := by
    rw [List.takeWhile_append_of_pos (fun c hc => (hchars c hc).2)]
    simp [List.takeWhile_cons_of_neg, notColon]
  have hdrop : (s ++ ':' :: rest).dropWhile notColon = ':' :: rest := by
    rw [List.dropWhile_append_of_pos (fun c hc => (hchars c hc).2)]
    simp [List.dropWhile_cons_of_neg, notColon]
  have hhead2 : headAlphaAscii (s ++ ':' :: rest) = true := by
    cases s with
    | nil => exact absurd rfl hne
    | cons a t =>
      unfold headAlphaAscii at hhead ⊢
      simpa using hhead
  have hcond : ((s ++ ':' :: rest).contains ':'
      && !((s ++ ':' :: rest).takeWhile notColon).isEmpty
      && headAlphaAscii (s ++ ':' :: rest)
      && ((s ++ ':' :: rest).takeWhile notColon).all isSchemeChar) = true := by
    rw [hpre, hhead2]
    simp only [Bool.and_eq_true, Bool.not_eq_true']
    refine ⟨⟨⟨?_, ?_⟩, trivial⟩, ?_⟩
    · simp
    · simpa using hne
    · exact List.all_eq_true.mpr (fun c hc => (hchars c hc).1)
  unfold splitScheme
  rw [if_pos hcond, hpre, hdrop, hmap]
  rfl

/-- Scheme extraction finds no scheme on a string that starts with a
slash. -/
theorem splitScheme_slash (rest : List Char) :
    splitScheme ('/' :: rest) = ([], '/' :: rest) := by
  unfold splitScheme
  rw [if_neg]
  simp [headAlphaAscii, Char.isAlpha, Char.isUpper, Char.isLower]

/-- The netloc step on a reassembled `//netloc path` string recovers exactly
the netloc and the path, provided the netloc has only netloc characters and
balanced brackets and the path is empty or slash-led. -/
theorem splitNetlocStep_append (n p : List Char)
    (hn : ∀ c ∈ n, netChar c = true) (hb : badBrackets n = false)
    (hp : p = [] ∨ p.head? = some '/') :
    splitNetlocStep ('/' :: '/' :: (n ++ p)) = .ok (n, p) := by
  have htake : ('/' :: '/' :: (n ++ p)).take 2 = ['/', '/'] := rfl
  have htw : (n ++ p).takeWhile netChar = n := by
    rw [List.takeWhile_append_of_pos hn]
    rcases hp with rfl | hp1
    · simp
    · cases p with
      | nil => simp
      | cons a t =>
        simp only [List.head?_cons, Option.some.injEq] at hp1
        subst hp1
        simp [List.takeWhile_cons_of_neg, netChar]
  have hdw : (n ++ p).dropWhile netChar = p := by
    rw [List.dropWhile_append_of_pos hn]
    rcases hp with rfl | hp1
    · simp
    · cases p with
      | nil => simp
      | cons a t =>
        simp only [List.head?_cons, Option.some.injEq] at hp1
        subst hp1
        simp [List.dropWhile_cons_of_neg, netChar]
  unfold splitNetlocStep
  rw [if_pos htake]
  simp only [List.drop_succ_cons, List.drop_zero, htw, hdw]
  rw [if_neg]
  simp [hb]

/-- What the netloc step can produce: an empty netloc and the untouched
string, or the `//`-led split with a bracket-balanced netloc. -/
theorem splitNetlocStep_ok_inv (url1 n url2 : List Char)
    (h : splitNetlocStep url1 = .ok (n, url2)) :
    (n = [] ∧ url2 = url1)
    ∨ (n = (url1.drop 2).takeWhile netChar
        ∧ url2 = (url1.drop 2).dropWhile netChar
        ∧ badBrackets n = false) := by
  unfold splitNetlocStep at h
  split at h
  · dsimp only at h
    split at h
    · simp at h
    · next hb =>
      right
      simp only [Except.ok.injEq, Prod.mk.injEq] at h
      refine ⟨h.1.symm, h.2.symm, ?_⟩
      rw [← h.1]
      simpa using hb
  · left
    simp only [Except.ok.injEq, Prod.mk.injEq] at h
    exact ⟨h.1.symm, h.2.symm⟩

/-- Structural facts about a successful parse: netloc characters are netloc
characters with balanced brackets, path characters are free of `#`, `?` and
removable characters, a path beside a nonempty netloc is empty or slash-led,
and the scheme is empty or a lowercased scheme-character word led by an ASCII
letter. -/
theorem urlsplit_ok_inv (v : List Char) (parts : SplitResult)
    (h : urlsplit v = .ok parts) :
    (∀ c ∈ parts.netloc, netChar c = true ∧ removedChar c = false)
    ∧ badBrackets parts.netloc = false
    ∧ (∀ c ∈ parts.path, notHash c = true ∧ notQuest c = true
        ∧ removedChar c = false)
    ∧ (parts.netloc ≠ [] → (parts.path = [] ∨ parts.path.head? = some '/'))
    ∧ (parts.scheme = [] ∨ ∃ c0 pre,
        (∀ c ∈ c0 :: pre, isSchemeChar c = true)
        ∧ c0.isAlpha = true ∧ c0.toNat ≤ 127
        ∧ parts.scheme = (c0 :: pre).map lowerChar) := by
  unfold urlsplit at h
  cases hsp : splitScheme (preprocess v) with
  | mk s url1 =>
  rw [hsp] at h
  dsimp only at h
  cases hns : splitNetlocStep url1 with
  | error e => rw [hns] at h; simp at h
  | ok p =>
  cases p with
  | mk n url2 =>
  rw [hns] at h
  dsimp only at h
  cases h3 : splitOnce notHash url2 with
  | mk url3 frag =>
  rw [h3] at h
  dsimp only at h
  cases h4 : splitOnce notQuest url3 with
  | mk pa qy =>
  rw [h4] at h
  dsimp only at h
  simp only [Except.ok.injEq] at h
  subst h
  have hurl1w : ∀ c ∈ url1, c ∈ preprocess v := by
    have := splitScheme_snd_subset (preprocess v)
    rw [hsp] at this
    exact this
  have hurl3all : ∀ c ∈ url3, notHash c = true := by
    have := splitOnce_fst_all notHash url2
    rw [h3] at this
    exact this
  have hurl3sub : ∀ c ∈ url3, c ∈ url2 := by
    have := splitOnce_fst_subset notHash url2
    rw [h3] at this
    exact this
  have hpaall : ∀ c ∈ pa, notQuest c = true := by
    have := splitOnce_fst_all notQuest url3
    rw [h4] at this
    exact this
  have hpasub : ∀ c ∈ pa, c ∈ url3 := by
    have := splitOnce_fst_subset notQuest url3
    rw [h4] at this
    exact this
  rcases splitNetlocStep_ok_inv url1 n url2 hns with ⟨hn0, hu2⟩ | ⟨hn1, hu21, hbb⟩
  · subst hn0
    subst hu2
    refine ⟨by simp, by simp [badBrackets], ?_, by simp, ?_⟩
    · intro c hc
      have hc3 := hpasub c hc
      have hc1 := hurl3sub c hc3
      exact ⟨hurl3all c hc3, hpaall c hc,
        preprocess_removedChar v c (hurl1w c hc1)⟩
    · rcases splitScheme_cases (preprocess v) with hcase | ⟨c0, pre, _, hall, ha, hle, hcase⟩
      · rw [hsp] at hcase
        simp only [Prod.mk.injEq] at hcase
        exact Or.inl hcase.1
      · rw [hsp] at hcase
        simp only [Prod.mk.injEq] at hcase
        exact Or.inr ⟨c0, pre, hall, ha, hle, hcase.1⟩
  · have hnall : ∀ c ∈ n, netChar c = true := by
      rw [hn1]
      intro c hc
      exact List.all_eq_true.mp (List.all_takeWhile) c hc
    have hnsub : ∀ c ∈ n, c ∈ url1 := by
      rw [hn1]
      intro c hc
      exact ((List.takeWhile_sublist _).trans (List.drop_sublist 2 url1)).subset hc
    have hu2sub : ∀ c ∈ url2, c ∈ url1 := by
      rw [hu21]
      intro c hc
      exact ((List.dropWhile_sublist _).trans (List.drop_sublist 2 url1)).subset hc
    refine ⟨?_, hbb, ?_, ?_, ?_⟩
    · intro c hc
      exact ⟨hnall c hc, preprocess_removedChar v c (hurl1w c (hnsub c hc))⟩
    · intro c hc
      have hc3 := hpasub c hc
      have hc2 := hurl3sub c hc3
      exact ⟨hurl3all c hc3, hpaall c hc,
        preprocess_removedChar v c (hurl1w c (hu2sub c hc2))⟩
    · intro _hne
      rcases splitOnce_fst_head notQuest url3 with hp4 | hp4
      · rw [h4] at hp4
        exact Or.inl hp4
      · rw [h4] at hp4
        rcases splitOnce_fst_head notHash url2 with hp3 | hp3
        · rw [h3] at hp3
          have hu3 : url3 = [] := hp3
          cases hpa : pa with
          | nil => exact Or.inl rfl
          | cons a t =>
            have : pa.head? = none := by
              have h1 : pa.head? = url3.head? := hp4
              rw [h1, hu3]
              rfl
            rw [hpa] at this
            simp at this
        · rw [h3] at hp3
          cases hpa : pa with
          | nil => exact Or.inl rfl
          | cons a t =>
            right
            have hpahead : pa.head? = url2.head? := by
              have h1 : pa.head? = url3.head? := hp4
              have h2 : url3.head? = url2.head? := hp3
              rw [h1, h2]
            cases hu2h : url2.head? with
            | none =>
              rw [hu2h, hpa] at hpahead
              simp at hpahead
            | some c =>
              rw [hu2h] at hpahead
              have hhd := List.head?_dropWhile_not netChar (url1.drop 2)
              rw [← hu21, hu2h] at hhd
              simp only at hhd
              have hch : c ∈ pa := by
                rw [hpa] at hpahead ⊢
                simp only [List.head?_cons, Option.some.injEq] at hpahead
                rw [hpahead]
                simp
              have hcnh := hurl3all c (hpasub c hch)
              have hcnq := hpaall c hch
              have hcs : c = '/' := by
                cases heq : c == '/' with
                | true => exact eq_of_beq heq
                | false =>
                  have hb1 : (c != '#') = true := by simpa [notHash] using hcnh
                  have hb2 : (c != '?') = true := by simpa [notQuest] using hcnq
                  have hb3 : (c != '/') = true := by simp [bne, heq]
                  unfold netChar at hhd
                  rw [hb3, hb2, hb1] at hhd
                  simp at hhd
              show (a :: t).head? = some '/'
              rw [← hpa, hpahead, hcs]
    · rcases splitScheme_cases (preprocess v) with hcase | ⟨c0, pre, _, hall, ha, hle, hcase⟩
      · rw [hsp] at hcase
        simp only [Prod.mk.injEq] at hcase
        exact Or.inl hcase.1
      · rw [hsp] at hcase
        simp only [Prod.mk.injEq] at hcase
        exact Or.inr ⟨c0, pre, hall, ha, hle, hcase.1⟩

/-- A scheme character seen as a member of the alphabet. -/
theorem isSchemeChar_mem (c : Char) (h : isSchemeChar c = true) :
    c ∈ schemeChars := by
  simp only [isSchemeChar, List.contains, List.elem_eq_mem,
    decide_eq_true_eq] at h
  exact h

/-- `urlunsplit` on a nonempty netloc and an empty-or-slash-led path emits
`scheme://netloc path` (the scheme part only when nonempty). -/
theorem urlunsplit_netloc_eq (s n p : List Char) (hn : n ≠ [])
    (hp : p = [] ∨ p.head? = some '/') :
    urlunsplit ⟨s, n, p, [], []⟩
      = if s = [] then '/' :: '/' :: (n ++ p)
        else s ++ ':' :: ('/' :: '/' :: (n ++ p)) := by
  unfold urlunsplit
  dsimp only
  rw [if_pos (Or.inl (by simpa using hn))]
  rw [if_neg (c := ¬p.isEmpty = true ∧ p.take 1 ≠ ['/'])]
  · rw [if_neg (by simp)]
    rw [if_neg (by simp)]
    by_cases hs : s = []
    · rw [if_pos hs, if_neg (by simp [hs])]
      simp
    · rw [if_neg hs, if_pos (by simpa using hs)]
      simp
  · rcases hp with rfl | hp1
    · simp
    · cases p with
      | nil => simp
      | cons a t =>
        simp only [List.head?_cons, Option.some.injEq] at hp1
        subst hp1
        simp

/-- Re-parsing the reassembled `scheme://netloc path` string recovers exactly
the stored components, with empty query and fragment. -/
theorem urlsplit_reassembled (s n p : List Char) (hn : n ≠ [])
    (hs : s = [] ∨ (s ≠ []
      ∧ (∀ c ∈ s, isSchemeChar c = true ∧ notColon c = true
          ∧ removedChar c = false ∧ 32 < c.toNat)
      ∧ s.map lowerChar = s ∧ headAlphaAscii s = true))
    (hnall : ∀ c ∈ n, netChar c = true ∧ removedChar c = false)
    (hbr : badBrackets n = false)
    (hp : p = [] ∨ p.head? = some '/')
    (hpall : ∀ c ∈ p, notHash c = true ∧ notQuest c = true
      ∧ removedChar c = false) :
    urlsplit (urlunsplit ⟨s, n, p, [], []⟩) = .ok ⟨s, n, p, [], []⟩ := by
  have hcore : ∀ c ∈ '/' :: '/' :: (n ++ p), removedChar c = false := by
    intro c hc
    simp only [List.mem_cons, List.mem_append] at hc
    rcases hc with rfl | rfl | hc | hc
    · rfl
    · rfl
    · exact (hnall c hc).2
    · exact (hpall c hc).2.2
  have hnet : splitNetlocStep ('/' :: '/' :: (n ++ p)) = .ok (n, p) :=
    splitNetlocStep_append n p (fun c hc => (hnall c hc).1) hbr hp
  have hfin : ∀ u1, splitNetlocStep u1 = .ok (n, p) →
      (match splitNetlocStep u1 with
        | Except.error e => Except.error e
        | Except.ok (netloc, url2) =>
          Except.ok (SplitResult.mk s netloc
            (splitOnce notQuest (splitOnce notHash url2).1).1
            (splitOnce notQuest (splitOnce notHash url2).1).2
            (splitOnce notHash url2).2)) = .ok ⟨s, n, p, [], []⟩ := by
    intro u1 hu1
    rw [hu1]
    have hh : splitOnce notHash p = (p, []) :=
      splitOnce_of_all notHash p
        (List.all_eq_true.mpr (fun c hc => (hpall c hc).1))
    have hq : splitOnce notQuest p = (p, []) :=
      splitOnce_of_all notQuest p
        (List.all_eq_true.mpr (fun c hc => (hpall c hc).2.1))
    dsimp only
    rw [hh]
    dsimp only
    rw [hq]
  rw [urlunsplit_netloc_eq s n p hn hp]
  rcases hs with rfl | ⟨hne, hchars, hmap, hhead⟩
  · rw [if_pos rfl]
    unfold urlsplit
    rw [preprocess_eq_self _ (by intro c hc; cases hc; rfl) hcore]
    rw [splitScheme_slash ('/' :: (n ++ p))]
    dsimp only
    exact hfin _ hnet
  · rw [if_neg hne]
    unfold urlsplit
    rw [preprocess_eq_self]
    · rw [show (s ++ ':' :: ('/' :: '/' :: (n ++ p)))
          = s ++ ':' :: ('/' :: '/' :: (n ++ p)) from rfl]
      rw [splitScheme_append s ('/' :: '/' :: (n ++ p)) hne
        (fun c hc => ⟨(hchars c hc).1, (hchars c hc).2.1⟩) hmap hhead]
      dsimp only
      exact hfin _ hnet
    · intro c hc
      cases s with
      | nil => exact absurd rfl hne
      | cons a t =>
        simp only [List.cons_append, List.head?_cons, Option.some.injEq] at hc
        subst hc
        have := (hchars a (by simp)).2.2.2
        simp [c0OrSpace]
        omega
    · intro c hc
      simp only [List.mem_append, List.mem_cons] at hc
      rcases hc with hc | rfl | hc
      · exact (hchars c hc).2.2.1
      · rfl
      · refine hcore c ?_
        simp only [List.mem_cons, List.mem_append]
        tauto

/-- C6 counterexample: the base URL string "////x" is accepted by the setter,
storing an empty scheme, an empty authority and path "//x"; the getter then
returns "//x", whose re-parse has authority "x" and an empty path, so neither
the authority nor the slash-normalized path round-trips. -/
theorem claim6_counterexample :
    setEntrypoint ⟨[], [], [], none⟩ ("////x").toList
        = .ok ⟨[], [], ("//x").toList, none⟩
      ∧ urlsplit (getEntrypoint ⟨[], [], ("//x").toList, none⟩)
        = .ok ⟨[], ("x").toList, [], [], []⟩
      ∧ ("x").toList ≠ ([] : List Char)
      ∧ ("//x").toList ≠ ([] : List Char) :=
  ⟨rfl, rfl, by decide, by decide⟩

/-- C6, amended: for every base URL the setter accepts whose parsed authority
(netloc) is non-empty, re-parsing the string returned by the getter yields
exactly the stored scheme, the stored authority and the stored
slash-normalized path, with query and fragment normalized away.  (With an
empty authority the round trip can fail, e.g. for "////x".) -/
theorem claim6_roundtrip_with_authority (st : ClientState) (value : List Char)
    (st2 : ClientState) (hset : setEntrypoint st value = .ok st2)
    (hn : st2.netloc ≠ []) :
    urlsplit (getEntrypoint st2)
      = .ok ⟨st2.scheme, st2.netloc, st2.path, [], []⟩ := by
  unfold setEntrypoint at hset
  cases hu : urlsplit value with
  | error e => rw [hu] at hset; simp at hset
  | ok parts =>
    rw [hu] at hset
    simp only [Except.ok.injEq] at hset
    obtain ⟨hnl, hbr, hpath, hphead, hscheme⟩ := urlsplit_ok_inv value parts hu
    have hs2 : st2.scheme = parts.scheme := by rw [← hset]
    have hn2 : st2.netloc = parts.netloc := by rw [← hset]
    have hp2 : st2.path = rstripSlash parts.path := by rw [← hset]
    have hn' : parts.netloc ≠ [] := by rw [← hn2]; exact hn
    have hp'all : ∀ c ∈ rstripSlash parts.path,
        notHash c = true ∧ notQuest c = true ∧ removedChar c = false :=
      fun c hc => hpath c (rstripSlash_mem parts.path c hc)
    have hp'head : rstripSlash parts.path = []
        ∨ (rstripSlash parts.path).head? = some '/' := by
      rcases rstripSlash_head parts.path with h | h
      · exact Or.inl h
      · rcases hphead hn' with hpe | hh
        · left
          rw [hpe]
          rfl
        · right
          rw [h, hh]
    have hsfacts : parts.scheme = [] ∨ (parts.scheme ≠ []
        ∧ (∀ c ∈ parts.scheme, isSchemeChar c = true ∧ notColon c = true
            ∧ removedChar c = false ∧ 32 < c.toNat)
        ∧ parts.scheme.map lowerChar = parts.scheme
        ∧ headAlphaAscii parts.scheme = true) := by
      rcases hscheme with h | ⟨c0, pre, hall, ha, _hle, hseq⟩
      · exact Or.inl h
      · right
        have hc0mem : c0 ∈ schemeChars := isSchemeChar_mem c0 (hall c0 (by simp))
        refine ⟨by simp [hseq], ?_, ?_, ?_⟩
        · intro c hc
          rw [hseq] at hc
          simp only [List.mem_map] at hc
          obtain ⟨c1, hc1, rfl⟩ := hc
          have hm := isSchemeChar_mem c1 (hall c1 hc1)
          obtain ⟨f1, _f2, f3, f4, _f5, f6, _f7⟩ := schemeChars_facts c1 hm
          exact ⟨f1, f3, f6, f4⟩
        · rw [hseq, List.map_map]
          refine List.map_congr_left ?_
          intro a ha2
          have hm := isSchemeChar_mem a (hall a ha2)
          obtain ⟨_f1, f2, _f3, _f4, _f5, _f6, _f7⟩ := schemeChars_facts a hm
          simpa using f2
        · rw [hseq]
          obtain ⟨_f1, _f2, _f3, _f4, f5, _f6, f7⟩ :=
            schemeChars_facts c0 hc0mem
          unfold headAlphaAscii
          simp only [List.map_cons, List.head?_cons]
          simp [f7 ha, f5]
    unfold getEntrypoint
    rw [hs2, hn2, hp2]
    exact urlsplit_reassembled parts.scheme parts.netloc
      (rstripSlash parts.path) hn' hsfacts hnl hbr hp'head hp'all

/-- Witness for the amended C6 at the default entrypoint URL (with a trailing
slash to exercise the normalization). -/
theorem claim6_witness :
    setEntrypoint ⟨[], [], [], none⟩
        ("https://api.ssllabs.com/api/v2/").toList
      = .ok ⟨"https".toList, "api.ssllabs.com".toList, "/api/v2".toList,
        none⟩
    ∧ ("api.ssllabs.com").toList ≠ ([] : List Char)
    ∧ urlsplit (getEntrypoint ⟨"https".toList, "api.ssllabs.com".toList,
        "/api/v2".toList, none⟩)
      = .ok ⟨"https".toList, "api.ssllabs.com".toList, "/api/v2".toList,
        [], []⟩ :=
  ⟨rfl, by decide,
    claim6_roundtrip_with_authority ⟨[], [], [], none⟩
      ("https://api.ssllabs.com/api/v2/").toList
      ⟨"https".toList, "api.ssllabs.com".toList, "/api/v2".toList, none⟩
      rfl (by decide)⟩

end Ssllabs
